import Mathlib

/-!
Verification of the abuse-prevention guards of the accesschatgpt server:
the per-minute rate limiter, the daily session quota, the bot-detection
heuristics scorer, the token-request throttle, the request-fingerprint
tracker and the cost governor.

Each JavaScript module is shallowly embedded as pure Lean functions over
explicit store values.  Millisecond timestamps are modelled as `Nat` or
`Int`; JavaScript numbers that carry dollar amounts or averages are
modelled as exact rationals (`ℚ`).  Prisma tables with a unique key are
modelled either as association lists of records or as the projection to
the single keyed record an operation touches, mirroring the queries the
source issues.
-/

set_option maxRecDepth 4000

/-! ## Daily session quota — `app/lib/sessions/limits.js` -/

namespace Quota

/-- A row of the `session_limits` table, as created by `checkDailyLimit`. -/
structure SessionLimitRec where
  id : String
  sessionId : String
  ipAddress : String
  createdAt : Nat
  lastUsedAt : Nat
  dailyUsageResetAt : Nat
  dailyUsageCount : Nat
  userId : Option String
deriving Repr, DecidableEq

/-- A row of the `user` table, restricted to the fields `checkDailyLimit`
selects (`subscriptionTier`, `subscriptionStatus`); `none` models SQL NULL
(JavaScript `|| 'free'` then yields `"free"`). -/
structure UserRec where
  id : String
  subscriptionTier : Option String
  subscriptionStatus : Option String
deriving Repr, DecidableEq

/-- Result shape of `checkDailyLimit`.  `none` in `remaining`/`limit`
models the JavaScript `Infinity` of the paid tier. -/
structure QuotaResult where
  allowed : Bool
  remaining : Option Nat
  used : Nat
  limit : Option Nat
  resetAt : Nat
  tier : String
deriving Repr, DecidableEq

def FREE_DAILY_LIMIT : Nat := 20

/-- Embedding of `getNextMidnightUTC`: `midnight.setUTCHours(24, 0, 0, 0)` on the current
UTC instant, i.e. the start of the next UTC day.  `now` is in milliseconds
since the epoch; one UTC day is 86400000 ms. -/
def getNextMidnightUTC (now : Nat) : Nat :=
  (now / 86400000 + 1) * 86400000

/-- Insertion (descending by `key`) used to model Prisma `orderBy ... desc`. -/
def insertDesc (key : α → Nat) (x : α) : List α → List α
  | [] => [x]
  | y :: ys => if key y ≤ key x then x :: y :: ys else y :: insertDesc key x ys

/-- Sort a list descending by `key` (models `orderBy { key : 'desc' }`). -/
def sortDesc (key : α → Nat) : List α → List α :=
  List.foldr (insertDesc key) []

/-- The record lookup of `checkDailyLimit`: logged-in users are looked up by
`userId` ordered by `lastUsedAt` descending (most recently used record
wins); anonymous users by the unique `sessionId`. -/
def findSessionLimit (store : List SessionLimitRec) (sessionId : String)
    (userId : Option String) : Option SessionLimitRec :=
  match userId with
  | some uid =>
      (sortDesc (fun r => r.lastUsedAt)
        (store.filter (fun r => r.userId = some uid))).head?
  | none => store.find? (fun r => r.sessionId = sessionId)

/-- The `where` clause of the two `sessionLimit.update` calls: by `id` for
logged-in users, by `sessionId` for anonymous users. -/
def updTarget (sessionId : String) (userId : Option String)
    (found : SessionLimitRec) (r : SessionLimitRec) : Bool :=
  match userId with
  | some _ => r.id = found.id
  | none => r.sessionId = sessionId

/-- A Prisma `update` on the table: rewrite the rows matched by `pred`. -/
def updateWhere (store : List SessionLimitRec) (pred : SessionLimitRec → Bool)
    (f : SessionLimitRec → SessionLimitRec) : List SessionLimitRec :=
  store.map (fun r => if pred r then f r else r)

/-- The tier lookup of `checkDailyLimit` (lines 59-71): defaults to
`("free", "free")` when there is no user id, no user row, or NULL fields. -/
def userTier (users : List UserRec) (userId : Option String) : String × String :=
  match userId with
  | none => ("free", "free")
  | some uid =>
      match users.find? (fun u => u.id = uid) with
      | none => ("free", "free")
      | some u => (u.subscriptionTier.getD "free", u.subscriptionStatus.getD "free")

/-- Embedding of `checkDailyLimit(sessionId, userId)` from `app/lib/sessions/limits.js`.
`now` is the current time in ms, `freshId` stands for the `randomUUID()`
used when a record has to be created.  Returns the response object and the
table after any write.  Where the source re-reads the row returned by
`prisma.sessionLimit.update`, the model applies the same field update to
the row that was found (the update targets that unique row). -/
def checkDailyLimit (store : List SessionLimitRec) (users : List UserRec)
    (sessionId : String) (userId : Option String) (now : Nat) (freshId : String) :
    QuotaResult × List SessionLimitRec :=
  let found := findSessionLimit store sessionId userId
  let (sessionLimit, store1) :=
    match found with
    | some r => (r, store)
    | none =>
        let r : SessionLimitRec :=
          { id := freshId, sessionId := sessionId, ipAddress := "unknown"
            createdAt := now, lastUsedAt := now
            dailyUsageResetAt := getNextMidnightUTC now
            dailyUsageCount := 0, userId := userId }
        (r, store ++ [r])
  let (tier, subscriptionStatus) := userTier users userId
  let isPaid := tier = "paid" ∧ subscriptionStatus = "active"
  let dailyLimit : Option Nat := if isPaid then none else some FREE_DAILY_LIMIT
  if sessionLimit.dailyUsageResetAt ≤ now then
    -- window expired: reset counter and count the current request
    let nextReset := getNextMidnightUTC now
    let upd := fun r : SessionLimitRec =>
      { r with dailyUsageCount := 1, dailyUsageResetAt := nextReset, lastUsedAt := now }
    ({ allowed := true
       remaining := dailyLimit.map (fun l => l - 1)
       used := if dailyLimit = none then 0 else 1
       limit := dailyLimit, resetAt := nextReset, tier := tier },
     updateWhere store1 (updTarget sessionId userId sessionLimit) upd)
  else if dailyLimit.any (fun l => decide (l ≤ sessionLimit.dailyUsageCount)) then
    -- limit exceeded: deny without writing
    ({ allowed := false, remaining := some 0
       used := sessionLimit.dailyUsageCount
       limit := dailyLimit, resetAt := sessionLimit.dailyUsageResetAt, tier := tier },
     store1)
  else
    -- consume one unit of quota
    let upd := fun r : SessionLimitRec =>
      { r with dailyUsageCount := r.dailyUsageCount + 1, lastUsedAt := now }
    let updated := upd sessionLimit
    ({ allowed := true
       remaining := dailyLimit.map (fun l => l - updated.dailyUsageCount)
       used := if dailyLimit = none then 0 else updated.dailyUsageCount
       limit := dailyLimit, resetAt := sessionLimit.dailyUsageResetAt, tier := tier },
     updateWhere store1 (updTarget sessionId userId sessionLimit) upd)

end Quota

/-! ### Theorems about the daily quota -/

/-- Next UTC midnight is strictly in the future. -/
theorem Quota.getNextMidnightUTC_gt (now : Nat) : now < Quota.getNextMidnightUTC now := by
  unfold Quota.getNextMidnightUTC
  have h := Nat.div_add_mod now 86400000
  have hm : now % 86400000 < 86400000 := Nat.mod_lt _ (by norm_num)
  omega

/-- At an exact UTC midnight the next midnight is a full day later. -/
theorem Quota.getNextMidnightUTC_at_midnight (now : Nat) (h : now % 86400000 = 0) :
    Quota.getNextMidnightUTC now = now + 86400000 := by
  unfold Quota.getNextMidnightUTC
  have hd := Nat.div_add_mod now 86400000
  omega

/-- C2: a quota check that finds a record whose `dailyUsageResetAt` is at or
before `now` is allowed, stores `dailyUsageCount = 1` and
`dailyUsageResetAt = getNextMidnightUTC now` on the identity's rows, and
that reset time is strictly after `now`; exactly at midnight it is
`now + 86400000`. -/
theorem checkDailyLimit_rollover (store : List Quota.SessionLimitRec)
    (users : List Quota.UserRec) (sessionId : String) (userId : Option String)
    (now : Nat) (freshId : String) (r : Quota.SessionLimitRec)
    (hfind : Quota.findSessionLimit store sessionId userId = some r)
    (hexp : r.dailyUsageResetAt ≤ now) :
    (Quota.checkDailyLimit store users sessionId userId now freshId).1.allowed = true ∧
    (Quota.checkDailyLimit store users sessionId userId now freshId).1.resetAt =
      Quota.getNextMidnightUTC now ∧
    (∀ rec ∈ (Quota.checkDailyLimit store users sessionId userId now freshId).2,
      Quota.updTarget sessionId userId r rec = true →
        rec.dailyUsageCount = 1 ∧
        rec.dailyUsageResetAt = Quota.getNextMidnightUTC now ∧
        rec.lastUsedAt = now) ∧
    now < Quota.getNextMidnightUTC now ∧
    (now % 86400000 = 0 → Quota.getNextMidnightUTC now = now + 86400000) := by
  unfold Quota.checkDailyLimit
  rw [hfind]
  simp only [if_pos hexp]
  refine ⟨by trivial, by trivial, ?_, Quota.getNextMidnightUTC_gt now,
    Quota.getNextMidnightUTC_at_midnight now⟩
  intro rec hmem htarget
  simp only [Quota.updateWhere, List.mem_map] at hmem
  obtain ⟨orig, _, horig⟩ := hmem
  by_cases hp : Quota.updTarget sessionId userId r orig
  · rw [if_pos hp] at horig
    subst horig
    exact ⟨by trivial, by trivial, by trivial⟩
  · rw [if_neg hp] at horig
    subst horig
    exact absurd htarget hp

/-- Witness for `checkDailyLimit_rollover` at a concrete store. -/
theorem checkDailyLimit_rollover_witness :
    (Quota.checkDailyLimit
        [{ id := "a", sessionId := "s1", ipAddress := "unknown", createdAt := 0
           lastUsedAt := 5, dailyUsageResetAt := 86400000, dailyUsageCount := 17
           userId := none }]
        [] "s1" none 86400000 "fresh").1.allowed = true := by
  have h := checkDailyLimit_rollover
    [{ id := "a", sessionId := "s1", ipAddress := "unknown", createdAt := 0
       lastUsedAt := 5, dailyUsageResetAt := 86400000, dailyUsageCount := 17
       userId := none }]
    [] "s1" none 86400000 "fresh"
    { id := "a", sessionId := "s1", ipAddress := "unknown", createdAt := 0
      lastUsedAt := 5, dailyUsageResetAt := 86400000, dailyUsageCount := 17
      userId := none }
    (by decide) (by decide)
  exact h.1

/-- C10: a quota check that finds a record whose window is still open
(`now < dailyUsageResetAt`) for a non-paid identity whose
`dailyUsageCount` has reached the free-tier limit is denied with
`remaining = 0` and performs no write: the returned store is exactly the
input store. -/
theorem checkDailyLimit_denied_no_write (store : List Quota.SessionLimitRec)
    (users : List Quota.UserRec) (sessionId : String) (userId : Option String)
    (now : Nat) (freshId : String) (r : Quota.SessionLimitRec)
    (hfind : Quota.findSessionLimit store sessionId userId = some r)
    (hopen : now < r.dailyUsageResetAt)
    (hfree : ¬((Quota.userTier users userId).1 = "paid" ∧
               (Quota.userTier users userId).2 = "active"))
    (hfull : Quota.FREE_DAILY_LIMIT ≤ r.dailyUsageCount) :
    (Quota.checkDailyLimit store users sessionId userId now freshId).1.allowed = false ∧
    (Quota.checkDailyLimit store users sessionId userId now freshId).1.remaining = some 0 ∧
    (Quota.checkDailyLimit store users sessionId userId now freshId).2 = store := by
  unfold Quota.checkDailyLimit
  rw [hfind]
  have hnr : ¬(r.dailyUsageResetAt ≤ now) := by omega
  simp only [if_neg hnr, if_neg hfree]
  have hany : (some Quota.FREE_DAILY_LIMIT).any
      (fun l => decide (l ≤ r.dailyUsageCount)) = true := by
    simp [Option.any, hfull]
  simp only [hany, if_pos]
  exact ⟨by trivial, by trivial, by trivial⟩

/-- Witness for `checkDailyLimit_denied_no_write` at a concrete store. -/
theorem checkDailyLimit_denied_no_write_witness :
    (Quota.checkDailyLimit
        [{ id := "a", sessionId := "s1", ipAddress := "unknown", createdAt := 0
           lastUsedAt := 5, dailyUsageResetAt := 86400000, dailyUsageCount := 20
           userId := none }]
        [] "s1" none 1000 "fresh").2 =
      [{ id := "a", sessionId := "s1", ipAddress := "unknown", createdAt := 0
         lastUsedAt := 5, dailyUsageResetAt := 86400000, dailyUsageCount := 20
         userId := none }] := by
  have h := checkDailyLimit_denied_no_write
    [{ id := "a", sessionId := "s1", ipAddress := "unknown", createdAt := 0
       lastUsedAt := 5, dailyUsageResetAt := 86400000, dailyUsageCount := 20
       userId := none }]
    [] "s1" none 1000 "fresh"
    { id := "a", sessionId := "s1", ipAddress := "unknown", createdAt := 0
      lastUsedAt := 5, dailyUsageResetAt := 86400000, dailyUsageCount := 20
      userId := none }
    (by decide) (by decide) (by decide) (by decide)
  exact h.2.2

/-! ## Cost governor — cost-monitoring module (`estimateCost`, `trackCost`,
`checkCostLimits`) -/

namespace CostGov

/-- A row of the `cost_tracking` table (unique per `date`). -/
structure CostRec where
  totalCost : ℚ
  requestCount : Nat
  tokenCount : Nat
deriving Repr, DecidableEq

/-- Result shape of `checkCostLimits`. -/
structure CostCheckResult where
  allowed : Bool
  dailyCost : ℚ
  limit : ℚ
  reason : Option String
deriving Repr, DecidableEq

def DAILY_COST_LIMIT : ℚ := 50
def HOURLY_COST_LIMIT : ℚ := 10
def GPT_5_1_INPUT_COST_PER_1K : ℚ := 1 / 100
def GPT_5_1_OUTPUT_COST_PER_1K : ℚ := 3 / 100
def GPT_4O_INPUT_COST_PER_1K : ℚ := 5 / 1000
def GPT_4O_OUTPUT_COST_PER_1K : ℚ := 15 / 1000

/-- Embedding of `estimateCost(inputTokens, outputTokens, model)`: the dollar-amount
arithmetic is modelled over exact rationals. -/
def estimateCost (inputTokens outputTokens : Nat) (model : String) : ℚ :=
  if model = "gpt-5.1" then
    (inputTokens : ℚ) / 1000 * GPT_5_1_INPUT_COST_PER_1K +
      (outputTokens : ℚ) / 1000 * GPT_5_1_OUTPUT_COST_PER_1K
  else if model = "gpt-4o" then
    (inputTokens : ℚ) / 1000 * GPT_4O_INPUT_COST_PER_1K +
      (outputTokens : ℚ) / 1000 * GPT_4O_OUTPUT_COST_PER_1K
  else
    (inputTokens : ℚ) / 1000 * (1 / 100) + (outputTokens : ℚ) / 1000 * (3 / 100)

/-- The `cost_tracking` table keyed by its unique `date` string (YYYY-MM-DD). -/
def CostLedger : Type := String → Option CostRec

/-- Embedding of `trackCost(cost, inputTokens, outputTokens)` on the row of `today`:
create the row on first sight, else increment the three counters in place. -/
def trackCost (ledger : CostLedger) (today : String) (cost : ℚ)
    (inputTokens outputTokens : Nat) : CostLedger :=
  fun d =>
    if d = today then
      match ledger today with
      | none => some ⟨cost, 1, inputTokens + outputTokens⟩
      | some r =>
          some ⟨r.totalCost + cost, r.requestCount + 1,
                r.tokenCount + (inputTokens + outputTokens)⟩
    else ledger d

/-- The result `checkCostLimits` returns from its `catch` branch. -/
def failOpenResult : CostCheckResult :=
  { allowed := true, dailyCost := 0, limit := DAILY_COST_LIMIT, reason := none }

/-- The `try` body of `checkCostLimits`.  The two awaited storage reads are
passed as `Except` values: `.error` at the point where the source would
await a failing query makes the whole body fail, exactly as a thrown
JavaScript error aborts the `try` block.  `readDaily` is the `totalCost`
of today's ledger row (`none` when the row does not exist), `readRecent`
the count of usage-log rows of the last hour.  Reason strings are
constants standing for the source's template literals. -/
def checkCostLimitsBody (readDaily : Except Unit (Option ℚ))
    (readRecent : Except Unit Nat) : Except Unit CostCheckResult :=
  match readDaily with
  | .error e => .error e
  | .ok dailyRecord =>
      let dailyCost := dailyRecord.getD 0
      if DAILY_COST_LIMIT ≤ dailyCost then
        .ok { allowed := false, dailyCost := dailyCost, limit := DAILY_COST_LIMIT
              reason := some "Daily cost limit exceeded" }
      else if HOURLY_COST_LIMIT * 2 < dailyCost then
        match readRecent with
        | .error e => .error e
        | .ok recentRequests =>
            if 100 < recentRequests then
              .ok { allowed := true, dailyCost := dailyCost, limit := DAILY_COST_LIMIT
                    reason := some "High recent activity detected" }
            else
              .ok { allowed := true, dailyCost := dailyCost, limit := DAILY_COST_LIMIT
                    reason := none }
      else
        .ok { allowed := true, dailyCost := dailyCost, limit := DAILY_COST_LIMIT
              reason := none }

/-- Embedding of `checkCostLimits` with its `try`/`catch`: a failing body is caught and
replaced by the fail-open result. -/
def checkCostLimitsE (readDaily : Except Unit (Option ℚ))
    (readRecent : Except Unit Nat) : CostCheckResult :=
  match checkCostLimitsBody readDaily readRecent with
  | .ok r => r
  | .error _ => failOpenResult

/-- Today's accumulated cost as `checkCostLimits` reads it
(`dailyRecord?.totalCost || 0`). -/
def dailyCostOf (ledger : CostLedger) (d : String) : ℚ :=
  ((ledger d).map (fun r => r.totalCost)).getD 0

/-- Embedding of `checkCostLimits()` against a ledger whose reads succeed. -/
def checkCostLimits (ledger : CostLedger) (today : String)
    (recentRequests : Nat) : CostCheckResult :=
  checkCostLimitsE (.ok ((ledger today).map (fun r => r.totalCost)))
    (.ok recentRequests)

end CostGov

/-! ### Theorems about the cost governor -/

/-- Evaluation of `checkCostLimitsE` when the ledger read fails. -/
theorem CostGov.checkE_daily_err (e : Unit) (rr : Except Unit Nat) :
    CostGov.checkCostLimitsE (Except.error e) rr = CostGov.failOpenResult := rfl

/-- Evaluation of `checkCostLimitsE` when today's cost has reached the
ceiling. -/
theorem CostGov.checkE_ge (d : Option ℚ) (rr : Except Unit Nat)
    (h : CostGov.DAILY_COST_LIMIT ≤ d.getD 0) :
    CostGov.checkCostLimitsE (Except.ok d) rr =
      { allowed := false, dailyCost := d.getD 0, limit := CostGov.DAILY_COST_LIMIT
        reason := some "Daily cost limit exceeded" } := by
  simp only [CostGov.checkCostLimitsE, CostGov.checkCostLimitsBody]
  rw [if_pos h]

/-- Evaluation of `checkCostLimitsE` on the low-cost path. -/
theorem CostGov.checkE_low (d : Option ℚ) (rr : Except Unit Nat)
    (h : ¬ CostGov.HOURLY_COST_LIMIT * 2 < d.getD 0) :
    CostGov.checkCostLimitsE (Except.ok d) rr =
      { allowed := true, dailyCost := d.getD 0, limit := CostGov.DAILY_COST_LIMIT
        reason := none } := by
  have hge : ¬ CostGov.DAILY_COST_LIMIT ≤ d.getD 0 := by
    unfold CostGov.DAILY_COST_LIMIT CostGov.HOURLY_COST_LIMIT at *
    intro hc
    exact h (by linarith)
  simp only [CostGov.checkCostLimitsE, CostGov.checkCostLimitsBody]
  rw [if_neg hge, if_neg h]

/-- Evaluation of `checkCostLimitsE` on the mid-cost path when the
usage-log read fails. -/
theorem CostGov.checkE_mid_err (d : Option ℚ) (e : Unit)
    (hge : ¬ CostGov.DAILY_COST_LIMIT ≤ d.getD 0)
    (hmid : CostGov.HOURLY_COST_LIMIT * 2 < d.getD 0) :
    CostGov.checkCostLimitsE (Except.ok d) (Except.error e) =
      CostGov.failOpenResult := by
  simp only [CostGov.checkCostLimitsE, CostGov.checkCostLimitsBody]
  rw [if_neg hge, if_pos hmid]

/-- Evaluation of `checkCostLimitsE` on the mid-cost path with a
successful usage-log read: the call is allowed either way. -/
theorem CostGov.checkE_mid_ok (d : Option ℚ) (n : Nat)
    (hge : ¬ CostGov.DAILY_COST_LIMIT ≤ d.getD 0)
    (hmid : CostGov.HOURLY_COST_LIMIT * 2 < d.getD 0) :
    (CostGov.checkCostLimitsE (Except.ok d) (Except.ok n)).allowed = true := by
  simp only [CostGov.checkCostLimitsE, CostGov.checkCostLimitsBody]
  rw [if_neg hge, if_pos hmid]
  by_cases hn : 100 < n
  · rw [if_pos hn]
  · rw [if_neg hn]

/-- C6: once today's ledger cost has reached the daily ceiling, every
`checkCostLimits` call of that day is denied; `trackCost` only ever adds
to the day's total (for any non-negative cost, in particular any
`estimateCost` value), so the ceiling condition is preserved by every
tracking write; and on a day whose ledger row does not exist the call is
allowed. -/
theorem checkCostLimits_ceiling (ledger : CostGov.CostLedger)
    (today tomorrow : String) (recent recent' : Nat)
    (hceil : CostGov.DAILY_COST_LIMIT ≤ CostGov.dailyCostOf ledger today)
    (hfresh : ledger tomorrow = none) :
    (CostGov.checkCostLimits ledger today recent).allowed = false ∧
    (∀ c : ℚ, 0 ≤ c → ∀ i o : Nat,
      CostGov.dailyCostOf ledger today ≤
        CostGov.dailyCostOf (CostGov.trackCost ledger today c i o) today) ∧
    (∀ i o : Nat, ∀ m : String, 0 ≤ CostGov.estimateCost i o m) ∧
    (CostGov.checkCostLimits ledger tomorrow recent').allowed = true := by
  refine ⟨?_, ?_, ?_, ?_⟩
  · unfold CostGov.checkCostLimits
    rw [CostGov.checkE_ge _ _ hceil]
  · intro c hc i o
    unfold CostGov.dailyCostOf CostGov.trackCost
    cases h : ledger today with
    | none => simp [h, hc]
    | some r => simp [h]; linarith
  · intro i o m
    unfold CostGov.estimateCost
    have hi : (0:ℚ) ≤ (i : ℚ) := by positivity
    have ho : (0:ℚ) ≤ (o : ℚ) := by positivity
    split
    · unfold CostGov.GPT_5_1_INPUT_COST_PER_1K CostGov.GPT_5_1_OUTPUT_COST_PER_1K
      positivity
    · split
      · unfold CostGov.GPT_4O_INPUT_COST_PER_1K CostGov.GPT_4O_OUTPUT_COST_PER_1K
        positivity
      · positivity
  · unfold CostGov.checkCostLimits
    rw [hfresh]
    rw [CostGov.checkE_low _ _ (by norm_num [CostGov.HOURLY_COST_LIMIT])]

/-- Witness for `checkCostLimits_ceiling` at a concrete ledger. -/
theorem checkCostLimits_ceiling_witness :
    (CostGov.checkCostLimits
        (fun d => if d = "2026-10-10" then some ⟨50, 9, 1000⟩ else none)
        "2026-10-10" 0).allowed = false := by
  have h := checkCostLimits_ceiling
    (fun d => if d = "2026-10-10" then some ⟨50, 9, 1000⟩ else none)
    "2026-10-10" "2026-10-11" 0 0 (by decide) (by decide)
  exact h.1

/-- C9: the cost governor fails open.  A failing ledger read yields the
fail-open result (allowed, dailyCost 0, no reason); a failing usage-log
read on the only path that consults it also yields the fail-open result;
and a denial can only arise from a successful ledger read whose value is
at or above the daily ceiling. -/
theorem checkCostLimits_fails_open (readDaily : Except Unit (Option ℚ))
    (readRecent : Except Unit Nat) :
    (readDaily = Except.error () →
      CostGov.checkCostLimitsE readDaily readRecent = CostGov.failOpenResult) ∧
    (∀ c : ℚ, readDaily = Except.ok (some c) →
      CostGov.HOURLY_COST_LIMIT * 2 < c → c < CostGov.DAILY_COST_LIMIT →
      readRecent = Except.error () →
      CostGov.checkCostLimitsE readDaily readRecent = CostGov.failOpenResult) ∧
    ((CostGov.checkCostLimitsE readDaily readRecent).allowed = false →
      ∃ c : ℚ, readDaily = Except.ok (some c) ∧ CostGov.DAILY_COST_LIMIT ≤ c) := by
  refine ⟨?_, ?_, ?_⟩
  · intro h
    subst h
    rfl
  · intro c hd hmid hlt hr
    subst hd; subst hr
    exact CostGov.checkE_mid_err (some c) () (by simpa using not_le.mpr hlt)
      (by simpa using hmid)
  · intro hdenied
    cases readDaily with
    | error e =>
        rw [CostGov.checkE_daily_err] at hdenied
        simp [CostGov.failOpenResult] at hdenied
    | ok dailyRecord =>
        by_cases hge : CostGov.DAILY_COST_LIMIT ≤ dailyRecord.getD 0
        · cases hcd : dailyRecord with
          | none =>
              rw [hcd] at hge
              norm_num [CostGov.DAILY_COST_LIMIT, Option.getD] at hge
          | some c =>
              refine ⟨c, rfl, ?_⟩
              rw [hcd] at hge
              simpa using hge
        · by_cases hmid : CostGov.HOURLY_COST_LIMIT * 2 < dailyRecord.getD 0
          · cases readRecent with
            | error e =>
                rw [CostGov.checkE_mid_err _ _ hge hmid] at hdenied
                simp [CostGov.failOpenResult] at hdenied
            | ok n =>
                rw [CostGov.checkE_mid_ok _ _ hge hmid] at hdenied
                simp at hdenied
          · rw [CostGov.checkE_low _ _ hmid] at hdenied
            simp at hdenied

/-- Witness for `checkCostLimits_fails_open`: a failing ledger read is
caught and the request is allowed. -/
theorem checkCostLimits_fails_open_witness :
    CostGov.checkCostLimitsE (Except.error ()) (Except.ok 0) =
      CostGov.failOpenResult := by
  exact (checkCostLimits_fails_open (Except.error ()) (Except.ok 0)).1 rfl

/-! ## Per-minute rate limiter — `rateLimit(identifier, limit, endpoint)` -/

namespace RateLimiter

/-- A row of the `rate_limits` table (unique per identifier+endpoint). -/
structure RateRec where
  count : Nat
  resetAt : Nat
  createdAt : Nat
  updatedAt : Nat
deriving Repr, DecidableEq

/-- Result shape of `rateLimit`. -/
structure RateResult where
  allowed : Bool
  remaining : Nat
  resetAt : Nat
deriving Repr, DecidableEq

def CHAT_LIMIT : Nat := 30
def REALTIME_LIMIT : Nat := 20
def SPEECH_LIMIT : Nat := 50

/-- The window length, `windowMs = 60 * 1000`. -/
def windowMs : Nat := 60000

/-- The `rate_limits` table keyed by its unique `(identifier, endpoint)`. -/
def RLStore : Type := String → String → Option RateRec

/-- Write the row of one `(identifier, endpoint)` key. -/
def RLStore.set (store : RLStore) (identifier endpoint : String) (r : RateRec) :
    RLStore :=
  fun i e => if i = identifier ∧ e = endpoint then some r else store i e

theorem RLStore.get_set (store : RLStore) (i e : String) (r : RateRec) :
    RLStore.set store i e r i e = some r := by
  unfold RLStore.set
  rw [if_pos ⟨rfl, rfl⟩]

/-- The shared tail of `rateLimit` (lines 72-99 of the source): deny with
`remaining = 0` when the record's count has reached the limit, else
atomically increment and allow. -/
def rateLimitStep (record : RateRec) (store : RLStore)
    (identifier endpoint : String) (limit now : Nat) : RateResult × RLStore :=
  if limit ≤ record.count then
    ({ allowed := false, remaining := 0, resetAt := record.resetAt }, store)
  else
    let r' := { record with count := record.count + 1, updatedAt := now }
    ({ allowed := true, remaining := limit - r'.count, resetAt := r'.resetAt },
     RLStore.set store identifier endpoint r')

/-- Embedding of `rateLimit(identifier, limit, endpoint)`: get-or-create the window
record, reset it when `resetAt <= now`, then check-and-increment. -/
def rateLimit (store : RLStore) (identifier : String) (limit : Nat)
    (endpoint : String) (now : Nat) : RateResult × RLStore :=
  match store identifier endpoint with
  | none =>
      let r : RateRec := ⟨0, now + windowMs, now, now⟩
      rateLimitStep r (RLStore.set store identifier endpoint r)
        identifier endpoint limit now
  | some r =>
      if r.resetAt ≤ now then
        let r' := { r with count := 0, resetAt := now + windowMs, updatedAt := now }
        rateLimitStep r' (RLStore.set store identifier endpoint r')
          identifier endpoint limit now
      else
        rateLimitStep r store identifier endpoint limit now

/-- Run a sequence of `rateLimit` calls (same identifier, endpoint and
limit) at the given times, collecting the results. -/
def rateLimitRun (store : RLStore) (identifier endpoint : String) (limit : Nat) :
    List Nat → List RateResult × RLStore
  | [] => ([], store)
  | t :: ts =>
      let step := rateLimit store identifier limit endpoint t
      let rest := rateLimitRun step.2 identifier endpoint limit ts
      (step.1 :: rest.1, rest.2)

/-- In-window run: starting from a stored record with `count ≤ limit`, a
sequence of calls all before `resetAt` allows exactly those calls that
still fit under the limit, gives denied calls `remaining = 0`, and leaves
a record with count `min (count + n) limit` and an unchanged `resetAt`. -/
theorem run_in_window (identifier endpoint : String) (limit : Nat) (ts : List Nat) :
    ∀ (store : RLStore) (r : RateRec),
      store identifier endpoint = some r → r.count ≤ limit →
      (∀ t ∈ ts, t < r.resetAt) →
      ((rateLimitRun store identifier endpoint limit ts).1.map
          (fun res => res.allowed) =
        (List.range ts.length).map (fun i => decide (r.count + i < limit))) ∧
      (∀ res ∈ (rateLimitRun store identifier endpoint limit ts).1,
        res.allowed = false → res.remaining = 0) ∧
      (∃ r', (rateLimitRun store identifier endpoint limit ts).2
          identifier endpoint = some r' ∧
        r'.count = min (r.count + ts.length) limit ∧ r'.resetAt = r.resetAt) := by
  induction ts with
  | nil =>
      intro store r hfind hc _
      refine ⟨rfl, by simp [rateLimitRun],
        ⟨r, hfind, by simp only [List.length_nil, Nat.add_zero]; omega, rfl⟩⟩
  | cons t ts ih =>
      intro store r hfind hc hts
      have ht : t < r.resetAt := hts t (List.mem_cons_self t ts)
      have hstep : rateLimit store identifier limit endpoint t =
          rateLimitStep r store identifier endpoint limit t := by
        simp only [rateLimit, hfind]
        rw [if_neg (by omega : ¬ r.resetAt ≤ t)]
      by_cases hfull : limit ≤ r.count
      · -- at the limit: denied, store unchanged
        have heq : rateLimitStep r store identifier endpoint limit t =
            ({ allowed := false, remaining := 0, resetAt := r.resetAt }, store) := by
          unfold rateLimitStep
          rw [if_pos hfull]
        have hc' : r.count = limit := by omega
        obtain ⟨ihm, ihz, r', ihr, ihcount, ihreset⟩ :=
          ih store r hfind hc (fun u hu => hts u (List.mem_cons_of_mem t hu))
        simp only [rateLimitRun, hstep, heq]
        refine ⟨?_, ?_,
          ⟨r', ihr, by simp only [List.length_cons] at ihcount ⊢; omega, ihreset⟩⟩
        · simp only [List.map_cons, List.length_cons, List.range_succ_eq_map,
            List.map_map]
          rw [ihm]
          simp only [List.cons.injEq]
          refine ⟨by simp [hc'], ?_⟩
          apply List.map_congr_left
          intro i _
          simp only [Function.comp_apply]
          rw [decide_eq_decide]
          omega
        · intro res hres hfalse
          rcases List.mem_cons.mp hres with h | h
          · rw [h]
          · exact ihz res h hfalse
      · -- below the limit: allowed, count incremented in place
        have heq : rateLimitStep r store identifier endpoint limit t =
            ({ allowed := true, remaining := limit - (r.count + 1)
               resetAt := r.resetAt },
             RLStore.set store identifier endpoint
               { r with count := r.count + 1, updatedAt := t }) := by
          unfold rateLimitStep
          rw [if_neg hfull]
        obtain ⟨ihm, ihz, r', ihr, ihcount, ihreset⟩ :=
          ih (RLStore.set store identifier endpoint
                { r with count := r.count + 1, updatedAt := t })
            { r with count := r.count + 1, updatedAt := t }
            (RLStore.get_set _ _ _ _) (show r.count + 1 ≤ limit by omega)
            (fun u hu => hts u (List.mem_cons_of_mem t hu))
        have ihm' :
            (rateLimitRun
                (RLStore.set store identifier endpoint
                  { r with count := r.count + 1, updatedAt := t })
                identifier endpoint limit ts).1.map (fun res => res.allowed) =
              (List.range ts.length).map
                (fun i => decide (r.count + 1 + i < limit)) := ihm
        have ihc' : r'.count = (r.count + 1 + ts.length) ⊓ limit := ihcount
        simp only [rateLimitRun, hstep, heq]
        refine ⟨?_, ?_, ⟨r', ihr, ?_, ihreset⟩⟩
        rotate_left 2
        · refine ihc'.trans ?_
          simp only [List.length_cons]
          omega
        · simp only [List.map_cons, List.length_cons, List.range_succ_eq_map,
            List.map_map]
          rw [ihm']
          simp only [List.cons.injEq]
          refine ⟨by simp; omega, ?_⟩
          apply List.map_congr_left
          intro i _
          simp only [Function.comp_apply]
          rw [decide_eq_decide]
          omega
        · intro res hres hfalse
          rcases List.mem_cons.mp hres with h | h
          · rw [h] at hfalse
            simp at hfalse
          · exact ihz res h hfalse

end RateLimiter

/-! ### Theorems about the rate limiter -/

/-- C1: with no stored window for the key, a first call at `t0` followed by
calls inside the same 60 s window allows exactly the first `limit` calls
(the i-th call is allowed iff `i < limit`), returns `remaining = 0` on
every denied call, leaves a record whose count never passes `limit` (denied
calls do not increment) with `resetAt = t0 + 60000`; and any call that
finds a record with `resetAt ≤ now` (with a positive limit) is allowed and
starts a fresh window with count 1 and `resetAt = now + 60000`. -/
theorem rateLimit_window_correct (store : RateLimiter.RLStore)
    (identifier endpoint : String) (limit : Nat) (t0 : Nat) (ts : List Nat)
    (hnone : store identifier endpoint = none)
    (hts : ∀ t ∈ ts, t0 ≤ t ∧ t < t0 + RateLimiter.windowMs) :
    ((RateLimiter.rateLimitRun store identifier endpoint limit (t0 :: ts)).1.map
        (fun res => res.allowed) =
      (List.range (ts.length + 1)).map (fun i => decide (i < limit))) ∧
    (∀ res ∈ (RateLimiter.rateLimitRun store identifier endpoint limit
        (t0 :: ts)).1, res.allowed = false → res.remaining = 0) ∧
    (∃ r', (RateLimiter.rateLimitRun store identifier endpoint limit
        (t0 :: ts)).2 identifier endpoint = some r' ∧
      r'.count = min (ts.length + 1) limit ∧
      r'.resetAt = t0 + RateLimiter.windowMs) ∧
    (∀ (st : RateLimiter.RLStore) (r : RateLimiter.RateRec) (now : Nat),
      st identifier endpoint = some r → r.resetAt ≤ now → 1 ≤ limit →
      (RateLimiter.rateLimit st identifier limit endpoint now).1 =
        { allowed := true, remaining := limit - 1
          resetAt := now + RateLimiter.windowMs } ∧
      ∃ r', (RateLimiter.rateLimit st identifier limit endpoint now).2
          identifier endpoint = some r' ∧
        r'.count = 1 ∧ r'.resetAt = now + RateLimiter.windowMs) := by
  have hcall : RateLimiter.rateLimit store identifier limit endpoint t0 =
      RateLimiter.rateLimitStep ⟨0, t0 + RateLimiter.windowMs, t0, t0⟩
        (RateLimiter.RLStore.set store identifier endpoint
          ⟨0, t0 + RateLimiter.windowMs, t0, t0⟩) identifier endpoint limit t0 := by
    simp only [RateLimiter.rateLimit, hnone]
  have hwin : ∀ u ∈ ts,
      u < (⟨0, t0 + RateLimiter.windowMs, t0, t0⟩ : RateLimiter.RateRec).resetAt :=
    fun u hu => (hts u hu).2
  refine ⟨?_, ?_, ?_, ?_⟩
  rotate_left 3
  · -- the fresh-window clause
    intro st r now hfindr hexp hl
    have hreset : RateLimiter.rateLimit st identifier limit endpoint now =
        RateLimiter.rateLimitStep
          ⟨0, now + RateLimiter.windowMs, r.createdAt, now⟩
          (RateLimiter.RLStore.set st identifier endpoint
            ⟨0, now + RateLimiter.windowMs, r.createdAt, now⟩)
          identifier endpoint limit now := by
      simp only [RateLimiter.rateLimit, hfindr]
      rw [if_pos hexp]
    have hstep : RateLimiter.rateLimitStep
        ⟨0, now + RateLimiter.windowMs, r.createdAt, now⟩
        (RateLimiter.RLStore.set st identifier endpoint
          ⟨0, now + RateLimiter.windowMs, r.createdAt, now⟩)
        identifier endpoint limit now =
        ({ allowed := true, remaining := limit - 1
           resetAt := now + RateLimiter.windowMs },
         RateLimiter.RLStore.set
           (RateLimiter.RLStore.set st identifier endpoint
             ⟨0, now + RateLimiter.windowMs, r.createdAt, now⟩)
           identifier endpoint
           ⟨1, now + RateLimiter.windowMs, r.createdAt, now⟩) := by
      unfold RateLimiter.rateLimitStep
      rw [if_neg (show ¬ limit ≤ 0 by omega)]
    rw [hreset, hstep]
    exact ⟨rfl, ⟨_, RateLimiter.RLStore.get_set _ _ _ _, rfl, rfl⟩⟩
  · -- results of the in-window run
    by_cases hlim : limit = 0
    · subst hlim
      have hstep : RateLimiter.rateLimitStep
          ⟨0, t0 + RateLimiter.windowMs, t0, t0⟩
          (RateLimiter.RLStore.set store identifier endpoint
            ⟨0, t0 + RateLimiter.windowMs, t0, t0⟩) identifier endpoint 0 t0 =
          ({ allowed := false, remaining := 0
             resetAt := t0 + RateLimiter.windowMs },
           RateLimiter.RLStore.set store identifier endpoint
             ⟨0, t0 + RateLimiter.windowMs, t0, t0⟩) := by
        unfold RateLimiter.rateLimitStep
        rw [if_pos (Nat.le_refl 0)]
      obtain ⟨ihm, -, -⟩ := RateLimiter.run_in_window identifier endpoint 0 ts
        (RateLimiter.RLStore.set store identifier endpoint
          ⟨0, t0 + RateLimiter.windowMs, t0, t0⟩)
        ⟨0, t0 + RateLimiter.windowMs, t0, t0⟩
        (RateLimiter.RLStore.get_set _ _ _ _) (Nat.le_refl 0) hwin
      simp only [RateLimiter.rateLimitRun, hcall, hstep, List.map_cons,
        List.range_succ_eq_map, List.map_map]
      rw [ihm]
      simp only [List.cons.injEq]
      refine ⟨by simp, ?_⟩
      apply List.map_congr_left
      intro i _
      simp only [Function.comp_apply]
      rw [decide_eq_decide]
      omega
    · have hstep : RateLimiter.rateLimitStep
          ⟨0, t0 + RateLimiter.windowMs, t0, t0⟩
          (RateLimiter.RLStore.set store identifier endpoint
            ⟨0, t0 + RateLimiter.windowMs, t0, t0⟩)
          identifier endpoint limit t0 =
          ({ allowed := true, remaining := limit - 1
             resetAt := t0 + RateLimiter.windowMs },
           RateLimiter.RLStore.set
             (RateLimiter.RLStore.set store identifier endpoint
               ⟨0, t0 + RateLimiter.windowMs, t0, t0⟩) identifier endpoint
             ⟨1, t0 + RateLimiter.windowMs, t0, t0⟩) := by
        unfold RateLimiter.rateLimitStep
        rw [if_neg (show ¬ limit ≤ 0 by omega)]
      obtain ⟨ihm, -, -⟩ := RateLimiter.run_in_window identifier endpoint limit ts
        (RateLimiter.RLStore.set
          (RateLimiter.RLStore.set store identifier endpoint
            ⟨0, t0 + RateLimiter.windowMs, t0, t0⟩) identifier endpoint
          ⟨1, t0 + RateLimiter.windowMs, t0, t0⟩)
        ⟨1, t0 + RateLimiter.windowMs, t0, t0⟩
        (RateLimiter.RLStore.get_set _ _ _ _) (show 1 ≤ limit by omega)
        (fun u hu => (hts u hu).2)
      simp only [RateLimiter.rateLimitRun, hcall, hstep, List.map_cons,
        List.range_succ_eq_map, List.map_map]
      rw [ihm]
      simp only [List.cons.injEq]
      refine ⟨by simp; omega, ?_⟩
      apply List.map_congr_left
      intro i _
      simp only [Function.comp_apply]
      rw [decide_eq_decide]
      omega
  · -- denied results carry remaining = 0
    by_cases hlim : limit = 0
    · subst hlim
      have hstep : RateLimiter.rateLimitStep
          ⟨0, t0 + RateLimiter.windowMs, t0, t0⟩
          (RateLimiter.RLStore.set store identifier endpoint
            ⟨0, t0 + RateLimiter.windowMs, t0, t0⟩) identifier endpoint 0 t0 =
          ({ allowed := false, remaining := 0
             resetAt := t0 + RateLimiter.windowMs },
           RateLimiter.RLStore.set store identifier endpoint
             ⟨0, t0 + RateLimiter.windowMs, t0, t0⟩) := by
        unfold RateLimiter.rateLimitStep
        rw [if_pos (Nat.le_refl 0)]
      obtain ⟨-, ihz, -⟩ := RateLimiter.run_in_window identifier endpoint 0 ts
        (RateLimiter.RLStore.set store identifier endpoint
          ⟨0, t0 + RateLimiter.windowMs, t0, t0⟩)
        ⟨0, t0 + RateLimiter.windowMs, t0, t0⟩
        (RateLimiter.RLStore.get_set _ _ _ _) (Nat.le_refl 0) hwin
      simp only [RateLimiter.rateLimitRun, hcall, hstep]
      intro res hres hfalse
      rcases List.mem_cons.mp hres with h | h
      · rw [h]
      · exact ihz res h hfalse
    · have hstep : RateLimiter.rateLimitStep
          ⟨0, t0 + RateLimiter.windowMs, t0, t0⟩
          (RateLimiter.RLStore.set store identifier endpoint
            ⟨0, t0 + RateLimiter.windowMs, t0, t0⟩)
          identifier endpoint limit t0 =
          ({ allowed := true, remaining := limit - 1
             resetAt := t0 + RateLimiter.windowMs },
           RateLimiter.RLStore.set
             (RateLimiter.RLStore.set store identifier endpoint
               ⟨0, t0 + RateLimiter.windowMs, t0, t0⟩) identifier endpoint
             ⟨1, t0 + RateLimiter.windowMs, t0, t0⟩) := by
        unfold RateLimiter.rateLimitStep
        rw [if_neg (show ¬ limit ≤ 0 by omega)]
      obtain ⟨-, ihz, -⟩ := RateLimiter.run_in_window identifier endpoint limit ts
        (RateLimiter.RLStore.set
          (RateLimiter.RLStore.set store identifier endpoint
            ⟨0, t0 + RateLimiter.windowMs, t0, t0⟩) identifier endpoint
          ⟨1, t0 + RateLimiter.windowMs, t0, t0⟩)
        ⟨1, t0 + RateLimiter.windowMs, t0, t0⟩
        (RateLimiter.RLStore.get_set _ _ _ _) (show 1 ≤ limit by omega)
        (fun u hu => (hts u hu).2)
      simp only [RateLimiter.rateLimitRun, hcall, hstep]
      intro res hres hfalse
      rcases List.mem_cons.mp hres with h | h
      · rw [h] at hfalse
        simp at hfalse
      · exact ihz res h hfalse
  · -- the final stored record
    by_cases hlim : limit = 0
    · subst hlim
      have hstep : RateLimiter.rateLimitStep
          ⟨0, t0 + RateLimiter.windowMs, t0, t0⟩
          (RateLimiter.RLStore.set store identifier endpoint
            ⟨0, t0 + RateLimiter.windowMs, t0, t0⟩) identifier endpoint 0 t0 =
          ({ allowed := false, remaining := 0
             resetAt := t0 + RateLimiter.windowMs },
           RateLimiter.RLStore.set store identifier endpoint
             ⟨0, t0 + RateLimiter.windowMs, t0, t0⟩) := by
        unfold RateLimiter.rateLimitStep
        rw [if_pos (Nat.le_refl 0)]
      obtain ⟨-, -, r', ihr, ihcount, ihreset⟩ :=
        RateLimiter.run_in_window identifier endpoint 0 ts
        (RateLimiter.RLStore.set store identifier endpoint
          ⟨0, t0 + RateLimiter.windowMs, t0, t0⟩)
        ⟨0, t0 + RateLimiter.windowMs, t0, t0⟩
        (RateLimiter.RLStore.get_set _ _ _ _) (Nat.le_refl 0) hwin
      simp only [RateLimiter.rateLimitRun, hcall, hstep]
      refine ⟨r', ihr, ?_, ihreset⟩
      have ihc : r'.count = (0 + ts.length) ⊓ 0 := ihcount
      omega
    · have hstep : RateLimiter.rateLimitStep
          ⟨0, t0 + RateLimiter.windowMs, t0, t0⟩
          (RateLimiter.RLStore.set store identifier endpoint
            ⟨0, t0 + RateLimiter.windowMs, t0, t0⟩)
          identifier endpoint limit t0 =
          ({ allowed := true, remaining := limit - 1
             resetAt := t0 + RateLimiter.windowMs },
           RateLimiter.RLStore.set
             (RateLimiter.RLStore.set store identifier endpoint
               ⟨0, t0 + RateLimiter.windowMs, t0, t0⟩) identifier endpoint
             ⟨1, t0 + RateLimiter.windowMs, t0, t0⟩) := by
        unfold RateLimiter.rateLimitStep
        rw [if_neg (show ¬ limit ≤ 0 by omega)]
      obtain ⟨-, -, r', ihr, ihcount, ihreset⟩ :=
        RateLimiter.run_in_window identifier endpoint limit ts
        (RateLimiter.RLStore.set
          (RateLimiter.RLStore.set store identifier endpoint
            ⟨0, t0 + RateLimiter.windowMs, t0, t0⟩) identifier endpoint
          ⟨1, t0 + RateLimiter.windowMs, t0, t0⟩)
        ⟨1, t0 + RateLimiter.windowMs, t0, t0⟩
        (RateLimiter.RLStore.get_set _ _ _ _) (show 1 ≤ limit by omega)
        (fun u hu => (hts u hu).2)
      simp only [RateLimiter.rateLimitRun, hcall, hstep]
      refine ⟨r', ihr, ?_, ihreset⟩
      have ihc : r'.count = (1 + ts.length) ⊓ limit := ihcount
      omega

/-- Witness for `rateLimit_window_correct`: limit 2, four calls inside one
window, allowed pattern true, true, false, false. -/
theorem rateLimit_window_correct_witness :
    ((RateLimiter.rateLimitRun (fun _ _ => none) "ip1" "chat" 2
        [0, 1, 2, 3]).1.map (fun res => res.allowed) =
      (List.range 4).map (fun i => decide (i < 2))) := by
  have h := rateLimit_window_correct (fun _ _ => none) "ip1" "chat" 2 0 [1, 2, 3]
    rfl (by decide)
  exact h.1

/-! ## Concurrent `rateLimit` calls — interleaving model

A `rateLimit` call against the shared store decomposes into two atomic
store operations: the `findUnique` read of the record, and the admission
check followed by the `{ count: { increment: 1 } }` update.  The decision
uses the count obtained by the earlier read (a possibly stale value),
while the increment itself is a single atomic in-place operation.  A
thread therefore has two phases: first it reads the shared count, then it
decides on its read value and, when admitted, increments atomically. -/

namespace Conc

/-- One in-flight `rateLimit` call: the count it read (if it has read yet)
and its final decision (if it has decided yet). -/
structure RLThread where
  readVal : Option Nat
  result : Option Bool
deriving Repr, DecidableEq

/-- The shared window record's count together with the in-flight calls. -/
structure RLConc where
  count : Nat
  threads : List RLThread
deriving Repr, DecidableEq

/-- A state of `n` fresh concurrent calls against a window record with count 0. -/
def initConc (n : Nat) : RLConc :=
  ⟨0, List.replicate n ⟨none, none⟩⟩

/-- The transition of a single thread given the shared count: read the
count; or check the stale read value against the limit and either record a
denial or record an admission together with the atomic increment; finished
threads do nothing.  Returns the updated thread and the new shared count. -/
def threadStep (limit count : Nat) : RLThread → RLThread × Nat
  | ⟨none, r⟩ => (⟨some count, r⟩, count)
  | ⟨some v, none⟩ =>
      if limit ≤ v then (⟨some v, some false⟩, count)
      else (⟨some v, some true⟩, count + 1)
  | ⟨some v, some b⟩ => (⟨some v, some b⟩, count)

/-- One atomic step of thread `i` against the shared state. -/
def concStep (limit : Nat) (s : RLConc) (i : Nat) : RLConc :=
  match s.threads[i]? with
  | none => s
  | some th =>
      { count := (threadStep limit s.count th).2
        threads := s.threads.set i (threadStep limit s.count th).1 }

/-- Run a schedule (a list of thread indices, each naming which thread
takes the next atomic step). -/
def runSched (limit : Nat) (s : RLConc) (sched : List Nat) : RLConc :=
  sched.foldl (concStep limit) s

/-- Number of calls that have returned `allowed = true`. -/
def allowedCount (threads : List RLThread) : Nat :=
  (threads.map (fun th => if th.result = some true then 1 else 0)).sum

theorem sum_set_of_get (f : RLThread → Nat) (l : List RLThread) (i : Nat)
    (t t' : RLThread) (hget : l[i]? = some t) :
    ((l.set i t').map f).sum + f t = (l.map f).sum + f t' := by
  induction l generalizing i with
  | nil => simp at hget
  | cons x xs ih =>
      cases i with
      | zero =>
          simp only [List.getElem?_cons_zero, Option.some.injEq] at hget
          subst hget
          simp only [List.set_cons_zero, List.map_cons, List.sum_cons]
          omega
      | succ j =>
          simp only [List.getElem?_cons_succ] at hget
          have h := ih j hget
          simp only [List.set_cons_succ, List.map_cons, List.sum_cons]
          omega

/-- A thread step changes the shared count by exactly the change in its
own admission tally. -/
theorem threadStep_delta (limit count : Nat) (th : RLThread) :
    (threadStep limit count th).2 +
        (if th.result = some true then 1 else 0) =
      count +
        (if (threadStep limit count th).1.result = some true then 1 else 0) := by
  obtain ⟨rv, res⟩ := th
  cases rv with
  | none => simp [threadStep]
  | some v =>
      cases res with
      | none =>
          by_cases hv : limit ≤ v
          · simp [threadStep, hv]
          · simp [threadStep, hv]
      | some b => simp [threadStep]

/-- Invariant: the shared count equals the number of admitted calls plus
what it started as; no increment is ever lost or applied twice. -/
theorem concStep_count_invariant (limit : Nat) (s : RLConc) (i : Nat)
    (hinv : s.count = allowedCount s.threads) :
    (concStep limit s i).count = allowedCount (concStep limit s i).threads := by
  unfold concStep
  cases hget : s.threads[i]? with
  | none => exact hinv
  | some th =>
      show (threadStep limit s.count th).2 =
        allowedCount (s.threads.set i (threadStep limit s.count th).1)
      have hsum := sum_set_of_get (fun t => if t.result = some true then 1 else 0)
        s.threads i th (threadStep limit s.count th).1 hget
      have hdelta := threadStep_delta limit s.count th
      unfold allowedCount at hinv ⊢
      simp only [] at hsum hdelta ⊢
      omega

/-- The invariant holds after any schedule from any invariant-satisfying
state. -/
theorem runSched_count_invariant (limit : Nat) (sched : List Nat) :
    ∀ (s : RLConc), s.count = allowedCount s.threads →
      (runSched limit s sched).count =
        allowedCount (runSched limit s sched).threads := by
  induction sched with
  | nil => intro s hinv; exact hinv
  | cons i rest ih =>
      intro s hinv
      exact ih (concStep limit s i) (concStep_count_invariant limit s i hinv)

end Conc

/-! ### Theorems about concurrent admission -/

/-- C4 counterexample: two concurrent calls with limit 1 against a fresh
shared window.  Both threads read count 0 before either increments; both
are admitted — the schedule read, read, increment, increment yields 2
allowed calls where the claim demands exactly 1. -/
theorem rateLimit_concurrent_overadmit_cex :
    Conc.allowedCount
        (Conc.runSched 1 (Conc.initConc 2) [0, 1, 0, 1]).threads = 2 ∧
    Conc.allowedCount
        (Conc.runSched 1 (Conc.initConc 2) [0, 1, 0, 1]).threads ≠ 1 := by
  decide

/-- C4 amended: under every interleaving of any number of concurrent
`rateLimit` calls, the stored count equals exactly the number of calls
that were admitted — increments are atomic in place and are never lost or
double-counted — though, as the counterexample shows, more than `limit`
calls can be admitted because the admission check uses the count read
before the increment. -/
theorem rateLimit_concurrent_count_eq_allowed (limit n : Nat)
    (sched : List Nat) :
    (Conc.runSched limit (Conc.initConc n) sched).count =
      Conc.allowedCount (Conc.runSched limit (Conc.initConc n) sched).threads := by
  apply Conc.runSched_count_invariant
  simp [Conc.initConc, Conc.allowedCount, List.map_replicate]

/-! ## Token-request throttle — `app/lib/bot-protection/token-throttle.js` -/

namespace Throttle

/-- The `rate_limits` row for `(sessionId, 'token')`, projected to the
fields the throttle uses. -/
structure TokenRec where
  count : Nat
  resetAt : ℤ
deriving Repr, DecidableEq

/-- Result shape of `checkTokenRequestThrottle`. -/
structure ThrottleResult where
  allowed : Bool
  retryAfter : ℤ
deriving Repr, DecidableEq

def TOKEN_REQUEST_MIN_INTERVAL_MS : ℤ := 5000
def TOKEN_REQUEST_WINDOW_MS : ℤ := 60000

/-- Embedding of `checkTokenRequestThrottle(sessionId)` over the session's `'token'`
rate-limit row (`none` when the row does not exist).  Times are integer
milliseconds.  `Math.ceil(x / 1000)` for the positive remaining wait is
`(x + 999) / 1000` in integer division.  Returns the result and the row
after any write (a denial writes nothing). -/
def checkTokenRequestThrottle (rec : Option TokenRec) (now : ℤ) :
    ThrottleResult × Option TokenRec :=
  match rec with
  | none =>
      ({ allowed := true, retryAfter := 0 },
       some ⟨1, now + TOKEN_REQUEST_WINDOW_MS⟩)
  | some r =>
      if r.resetAt ≤ now then
        ({ allowed := true, retryAfter := 0 },
         some ⟨1, now + TOKEN_REQUEST_WINDOW_MS⟩)
      else
        let timeSinceLastRequest := now - (r.resetAt - TOKEN_REQUEST_WINDOW_MS)
        if timeSinceLastRequest < TOKEN_REQUEST_MIN_INTERVAL_MS then
          ({ allowed := false
             retryAfter :=
               (TOKEN_REQUEST_MIN_INTERVAL_MS - timeSinceLastRequest + 999) / 1000 },
           some r)
        else
          ({ allowed := true, retryAfter := 0 },
           some ⟨r.count + 1, r.resetAt⟩)

/-- Run a sequence of throttle checks for one session at the given times. -/
def runThrottle (rec : Option TokenRec) :
    List ℤ → List ThrottleResult × Option TokenRec
  | [] => ([], rec)
  | t :: ts =>
      let step := checkTokenRequestThrottle rec t
      let rest := runThrottle step.2 ts
      (step.1 :: rest.1, rest.2)

end Throttle

/-! ### Theorems about the token throttle -/

/-- C7 counterexample: from no stored row, checks at 0 ms, 5000 ms and
5001 ms are all allowed.  The issuances at 5000 and 5001 are 1 ms apart,
where the claim demands the 5001 ms call be denied (and the stored window
be refreshed by each allowed issuance). -/
theorem tokenThrottle_refresh_cex :
    (Throttle.runThrottle none [0, 5000, 5001]).1.map
        (fun res => res.allowed) = [true, true, true] := by
  decide

/-- C7 amended: inside an unexpired window the throttle measures the
elapsed time from the window's start (`resetAt` minus 60 s), not from the
last allowed issuance.  A check less than 5 s after the window start is
denied with `retryAfter` the remaining whole seconds rounded up and no
write; a check at or past 5 s is allowed and leaves `resetAt` unchanged,
so an allowed issuance does not move the reference point. -/
theorem tokenThrottle_window_start (r : Throttle.TokenRec) (now : ℤ)
    (hopen : now < r.resetAt) :
    (now - (r.resetAt - Throttle.TOKEN_REQUEST_WINDOW_MS) <
        Throttle.TOKEN_REQUEST_MIN_INTERVAL_MS →
      Throttle.checkTokenRequestThrottle (some r) now =
        ({ allowed := false
           retryAfter := (Throttle.TOKEN_REQUEST_MIN_INTERVAL_MS -
             (now - (r.resetAt - Throttle.TOKEN_REQUEST_WINDOW_MS)) + 999) / 1000 },
         some r)) ∧
    (Throttle.TOKEN_REQUEST_MIN_INTERVAL_MS ≤
        now - (r.resetAt - Throttle.TOKEN_REQUEST_WINDOW_MS) →
      Throttle.checkTokenRequestThrottle (some r) now =
        ({ allowed := true, retryAfter := 0 }, some ⟨r.count + 1, r.resetAt⟩)) := by
  have hne : ¬ r.resetAt ≤ now := not_le.mpr hopen
  constructor
  · intro hlt
    simp only [Throttle.checkTokenRequestThrottle]
    rw [if_neg hne, if_pos hlt]
  · intro hge
    simp only [Throttle.checkTokenRequestThrottle]
    rw [if_neg hne, if_neg (not_lt.mpr hge)]

/-- Witness for `tokenThrottle_window_start`: window started at 0, check
at 3000 ms is denied with a 2 second retry. -/
theorem tokenThrottle_window_start_witness :
    Throttle.checkTokenRequestThrottle (some ⟨1, 60000⟩) 3000 =
      ({ allowed := false, retryAfter := 2 }, some ⟨1, 60000⟩) := by
  have h := (tokenThrottle_window_start ⟨1, 60000⟩ 3000 (by decide)).1 (by decide)
  exact h.trans (by decide)

/-! ## Bot-detection heuristics — `app/lib/bot-protection/heuristics.js` -/

namespace Heuristics

/-- A row of the `usage_logs` table, restricted to the fields the scorer
selects (`timestamp`, `endpoint`, `ipAddress`) plus the `sessionId` it
filters on.  Timestamps are integer milliseconds. -/
structure UsageRec where
  sessionId : String
  endpoint : String
  ipAddress : String
  timestamp : ℤ
deriving Repr, DecidableEq

/-- Result shape of `checkSuspiciousActivity`. -/
structure SuspicionResult where
  isSuspicious : Bool
  reason : Option String
  score : Nat
deriving Repr, DecidableEq

/-- Insertion (descending by an integer key), modelling Prisma
`orderBy { timestamp : 'desc' }`. -/
def insertDescZ (key : α → ℤ) (x : α) : List α → List α
  | [] => [x]
  | y :: ys => if key y ≤ key x then x :: y :: ys else y :: insertDescZ key x ys

/-- Sort a list descending by an integer key. -/
def sortDescZ (key : α → ℤ) : List α → List α :=
  List.foldr (insertDescZ key) []

theorem length_insertDescZ (key : α → ℤ) (x : α) (l : List α) :
    (insertDescZ key x l).length = l.length + 1 := by
  induction l with
  | nil => rfl
  | cons y ys ih =>
      unfold insertDescZ
      by_cases h : key y ≤ key x
      · rw [if_pos h]
        simp
      · rw [if_neg h]
        simp [ih]

theorem length_sortDescZ (key : α → ℤ) (l : List α) :
    (sortDescZ key l).length = l.length := by
  induction l with
  | nil => rfl
  | cons y ys ih =>
      unfold sortDescZ at ih ⊢
      simp [List.foldr_cons, length_insertDescZ, ih]

/-- The scorer's opening query: the session's usage-log rows of the last
hour, newest first, at most 20 of them. -/
def recentRequests (db : List UsageRec) (now : ℤ) (sessionId : String) :
    List UsageRec :=
  (sortDescZ (fun r => r.timestamp)
    (db.filter
      (fun r => r.sessionId = sessionId ∧ now - 3600000 < r.timestamp))).take 20

/-- The `timeDiffs` loop of Check 1: deltas between consecutive records
for indices `i < Math.min(10, length - 1)`, i.e. the first
`min 10 (length - 1)` consecutive deltas. -/
def timeDiffs (recs : List UsageRec) : List ℤ :=
  (List.zipWith (fun a b => a.timestamp - b.timestamp) recs recs.tail).take 10

/-- The comparison `avgTimeDiff < c` for the mean `sum / length` of the deltas, stated
over the integers by clearing the positive denominator.  The empty list
gives `0 < 0` (false), matching the JavaScript `NaN < c`.  The model
computes in exact arithmetic in place of floats. -/
def meanLt (l : List ℤ) (c : ℤ) : Prop :=
  l.sum < c * l.length

/-- The comparison `stdDev < c` for the population standard deviation of the deltas,
i.e. `variance < c ^ 2` with `variance = (Σ (d - sum/len)^2) / len`:
multiplying through by `len ^ 3 > 0` gives the equivalent integer form
`Σ (d * len - sum)^2 < c^2 * len^3`.  The empty list gives `0 < 0`
(false), matching the JavaScript `NaN < c`. -/
def stdDevLt (l : List ℤ) (c : ℤ) : Prop :=
  (l.map (fun d => (d * l.length - l.sum) ^ 2)).sum < c ^ 2 * (l.length : ℤ) ^ 3

instance (l : List ℤ) (c : ℤ) : Decidable (meanLt l c) :=
  inferInstanceAs (Decidable (l.sum < c * l.length))

instance (l : List ℤ) (c : ℤ) : Decidable (stdDevLt l c) :=
  inferInstanceAs
    (Decidable ((l.map (fun d => (d * l.length - l.sum) ^ 2)).sum <
      c ^ 2 * (l.length : ℤ) ^ 3))

/-- Check 1 of `checkSuspiciousActivity`: the timing-variance points plus
the rapid-fire points. -/
def timingScore (recs : List UsageRec) : Nat :=
  if 5 ≤ recs.length then
    (if stdDevLt (timeDiffs recs) 100 ∧ meanLt (timeDiffs recs) 1000 then 3
     else if stdDevLt (timeDiffs recs) 200 ∧ meanLt (timeDiffs recs) 2000 then 1
     else 0) +
    (if 3 ≤ (timeDiffs recs).countP (fun d => decide (d < 200)) then 2 else 0)
  else 0

/-- Embedding of `checkSuspiciousActivity(sessionId, endpoint, ipAddress)` over the
`usage_logs` table.  `sessionDurationHours < 0.1` is stated as
`sessionAge * 10 < 3600000`.  Reason strings are constants standing for
the source's joined per-check messages; the claims only observe whether a
reason is present. -/
def checkSuspiciousActivity (db : List UsageRec) (now : ℤ)
    (sessionId ipAddress : String) : SuspicionResult :=
  let recent := recentRequests db now sessionId
  if recent.length = 0 then
    -- new session: grace period
    { isSuspicious := false, reason := none, score := 0 }
  else if recent.length < 5 then
    -- fewer than 5 recent records: grace period
    { isSuspicious := false, reason := none, score := 0 }
  else
    -- Check 1: timing variance and rapid-fire deltas
    let score1 := timingScore recent
    -- Check 2: request count over the last five minutes
    let requestCount := db.countP
      (fun r => r.sessionId = sessionId ∧ now - 300000 < r.timestamp)
    let score2 := if 50 < requestCount then 2
      else if 30 < requestCount then 1 else 0
    -- Check 3: distinct sessions from this IP over the last five minutes
    let ipSessionCount := ((db.filter
      (fun r => r.ipAddress = ipAddress ∧ now - 300000 < r.timestamp)).map
        (fun r => r.sessionId)).dedup.length
    let score3 := if 20 < ipSessionCount then 3
      else if 10 < ipSessionCount then 1 else 0
    -- Check 5: session age (now minus the oldest recent record)
    let sessionAge : ℤ :=
      now - ((recent.getLast?.map (fun r => r.timestamp)).getD 0)
    let score5 := if sessionAge * 10 < 3600000 ∧ 20 < requestCount then 2
      else 0
    let score := score1 + score2 + score3 + score5
    { isSuspicious := 5 ≤ score
      reason := if 5 ≤ score then some "suspicious request pattern" else none
      score := score }

/-- The deltas exactly as the specification claim words them: between
consecutive records among the newest 10 records (at most 9 deltas). -/
def claimDiffs (recs : List UsageRec) : List ℤ :=
  List.zipWith (fun a b => a.timestamp - b.timestamp) (recs.take 10)
    (recs.take 10).tail

/-- The timing rule exactly as the specification claim words it, with the
same thresholds and points as the code. -/
def timingScoreClaim (recs : List UsageRec) : Nat :=
  if 5 ≤ recs.length then
    (if stdDevLt (claimDiffs recs) 100 ∧ meanLt (claimDiffs recs) 1000 then 3
     else if stdDevLt (claimDiffs recs) 200 ∧ meanLt (claimDiffs recs) 2000 then 1
     else 0) +
    (if 3 ≤ (claimDiffs recs).countP (fun d => decide (d < 200)) then 2 else 0)
  else 0

/-- The deltas as the amended claim words them: between consecutive
records among the newest 11 records (at most 10 deltas). -/
def amendedDiffs (recs : List UsageRec) : List ℤ :=
  List.zipWith (fun a b => a.timestamp - b.timestamp) (recs.take 11)
    (recs.take 11).tail

/-- The timing rule as amended. -/
def timingScoreAmended (recs : List UsageRec) : Nat :=
  if 5 ≤ recs.length then
    (if stdDevLt (amendedDiffs recs) 100 ∧ meanLt (amendedDiffs recs) 1000 then 3
     else if stdDevLt (amendedDiffs recs) 200 ∧
         meanLt (amendedDiffs recs) 2000 then 1
     else 0) +
    (if 3 ≤ (amendedDiffs recs).countP (fun d => decide (d < 200)) then 2 else 0)
  else 0

/-- The concrete usage log for the timing-rule counterexample: one session,
11 records in the last hour (newest 640000, all more than 5 minutes old at
`now = 1000000`), whose three oldest gaps are 100 ms and whose other seven
gaps are 10000 ms. -/
def cexDb : List UsageRec :=
  [⟨"s", "chat", "9.9.9.9", 640000⟩,
   ⟨"s", "chat", "9.9.9.9", 630000⟩,
   ⟨"s", "chat", "9.9.9.9", 620000⟩,
   ⟨"s", "chat", "9.9.9.9", 610000⟩,
   ⟨"s", "chat", "9.9.9.9", 600000⟩,
   ⟨"s", "chat", "9.9.9.9", 590000⟩,
   ⟨"s", "chat", "9.9.9.9", 580000⟩,
   ⟨"s", "chat", "9.9.9.9", 570000⟩,
   ⟨"s", "chat", "9.9.9.9", 569900⟩,
   ⟨"s", "chat", "9.9.9.9", 569800⟩,
   ⟨"s", "chat", "9.9.9.9", 569700⟩]

end Heuristics

/-! ### Theorems about the heuristics scorer -/

/-- C3: a session with fewer than 5 logged records in the whole table
scores 0, not suspicious, with a null reason — the grace-period
short-circuit fires before any scoring rule is evaluated, whatever the
records' timestamps, endpoints or addresses. -/
theorem checkSuspiciousActivity_grace (db : List Heuristics.UsageRec)
    (now : ℤ) (sessionId ipAddress : String)
    (hfew : db.countP (fun r => decide (r.sessionId = sessionId)) < 5) :
    Heuristics.checkSuspiciousActivity db now sessionId ipAddress =
      { isSuspicious := false, reason := none, score := 0 } := by
  have hlen : (Heuristics.recentRequests db now sessionId).length < 5 := by
    unfold Heuristics.recentRequests
    have h1 : ((Heuristics.sortDescZ (fun r => r.timestamp)
        (db.filter (fun r =>
          decide (r.sessionId = sessionId ∧ now - 3600000 < r.timestamp)))).take
            20).length ≤
        (db.filter (fun r =>
          decide (r.sessionId = sessionId ∧ now - 3600000 < r.timestamp))).length := by
      rw [List.length_take, Heuristics.length_sortDescZ]
      exact min_le_right _ _
    have h2 : (db.filter (fun r =>
        decide (r.sessionId = sessionId ∧ now - 3600000 < r.timestamp))).length ≤
        db.countP (fun r => decide (r.sessionId = sessionId)) := by
      rw [← List.countP_eq_length_filter]
      apply List.countP_mono_left
      intro x _ hx
      simp only [decide_eq_true_eq] at hx ⊢
      exact hx.1
    omega
  simp only [Heuristics.checkSuspiciousActivity]
  by_cases h0 : (Heuristics.recentRequests db now sessionId).length = 0
  · rw [if_pos h0]
  · rw [if_neg h0, if_pos hlen]

/-- Witness for `checkSuspiciousActivity_grace`: four tightly spaced
records still score 0. -/
theorem checkSuspiciousActivity_grace_witness :
    Heuristics.checkSuspiciousActivity
      [⟨"s", "chat", "1.1.1.1", 1000⟩, ⟨"s", "chat", "1.1.1.1", 1100⟩,
       ⟨"s", "chat", "1.1.1.1", 1200⟩, ⟨"s", "chat", "1.1.1.1", 1300⟩]
      2000 "s" "1.1.1.1" =
      { isSuspicious := false, reason := none, score := 0 } := by
  exact checkSuspiciousActivity_grace
    [⟨"s", "chat", "1.1.1.1", 1000⟩, ⟨"s", "chat", "1.1.1.1", 1100⟩,
     ⟨"s", "chat", "1.1.1.1", 1200⟩, ⟨"s", "chat", "1.1.1.1", 1300⟩]
    2000 "s" "1.1.1.1" (by decide)

/-- C5 counterexample: on `cexDb` the scorer computes 10 deltas (newest 11
records) and finds 3 rapid-fire gaps, scoring 2 with every other check
contributing 0; the claim's formula (9 deltas among the newest 10 records)
sees only 2 rapid gaps and scores 0. -/
theorem timingScore_newest10_cex :
    (Heuristics.checkSuspiciousActivity Heuristics.cexDb 1000000
        "s" "9.9.9.9").score = 2 ∧
    Heuristics.timingScoreClaim
        (Heuristics.recentRequests Heuristics.cexDb 1000000 "s") = 0 := by
  constructor
  · decide
  · decide

/-- Consecutive-delta lists commute with `take`: the first `n` deltas of a
list are the deltas of its first `n + 1` elements. -/
theorem take_zipWith_tail (f : α → α → β) :
    ∀ (n : Nat) (l : List α),
      (List.zipWith f l l.tail).take n =
        List.zipWith f (l.take (n + 1)) (l.take (n + 1)).tail
  | _, [] => by simp
  | _, [x] => by simp
  | 0, x :: y :: ys => by simp
  | (m + 1), x :: y :: ys => by
      have hrec := take_zipWith_tail f m (y :: ys)
      simp only [List.tail_cons] at hrec
      simp only [List.tail_cons, List.zipWith_cons_cons, List.take_succ_cons,
        hrec]

/-- C5 amended: for a session with at least 5 recent records, the timing
rule of the scorer is exactly the claim's formula computed over the deltas
between consecutive records among the newest 11 records (at most 10
deltas, `Math.min(10, length - 1)` of them): +3 for stddev < 100 ms with
mean < 1000 ms, else +1 for stddev < 200 ms with mean < 2000 ms, plus +2
when 3 or more deltas are under 200 ms. -/
theorem timingScore_matches_amended (recs : List Heuristics.UsageRec)
    (h5 : 5 ≤ recs.length) :
    Heuristics.timingScore recs = Heuristics.timingScoreAmended recs := by
  have hdiffs : Heuristics.timeDiffs recs = Heuristics.amendedDiffs recs := by
    unfold Heuristics.timeDiffs Heuristics.amendedDiffs
    exact take_zipWith_tail _ 10 recs
  unfold Heuristics.timingScore Heuristics.timingScoreAmended
  rw [if_pos h5, if_pos h5, hdiffs]

/-- Witness for `timingScore_matches_amended` on the counterexample log's
recent records. -/
theorem timingScore_matches_amended_witness :
    Heuristics.timingScore
        (Heuristics.recentRequests Heuristics.cexDb 1000000 "s") =
      Heuristics.timingScoreAmended
        (Heuristics.recentRequests Heuristics.cexDb 1000000 "s") := by
  exact timingScore_matches_amended
    (Heuristics.recentRequests Heuristics.cexDb 1000000 "s") (by decide)

/-! ## Request fingerprinting — `trackFingerprint(fingerprint, ipAddress,
sessionId)` -/

namespace Fingerprint

/-- A row of the `request_fingerprints` table.  The schema declares
`UNIQUE(fingerprint)`, so at most one row exists per fingerprint. -/
structure FPRec where
  fingerprint : String
  ipAddress : String
  sessionId : Option String
  firstSeen : ℤ
  lastSeen : ℤ
  requestCount : Nat
deriving Repr, DecidableEq

/-- Result shape of `trackFingerprint`. -/
structure FPResult where
  isSuspicious : Bool
  reason : Option String
  ipCount : Nat
deriving Repr, DecidableEq

/-- Embedding of `trackFingerprint(fingerprint, ipAddress, sessionId)`: create the row
on first sight; otherwise increment `requestCount` and update `lastSeen`
(the stored `ipAddress` and `sessionId` are not touched by the update),
then count distinct `ipAddress` values among this fingerprint's rows whose
`lastSeen` is inside the trailing 24 hours (`uniqueIPs.length || 1`), and
flag a bot farm when that count reaches 50. -/
def trackFingerprint (store : List FPRec) (fingerprint ipAddress : String)
    (sessionId : Option String) (now : ℤ) : FPResult × List FPRec :=
  match store.find? (fun r => r.fingerprint = fingerprint) with
  | none =>
      ({ isSuspicious := false, reason := none, ipCount := 1 },
       store ++ [⟨fingerprint, ipAddress, sessionId, now, now, 1⟩])
  | some _ =>
      let store' := store.map (fun r =>
        if r.fingerprint = fingerprint then
          { r with requestCount := r.requestCount + 1, lastSeen := now }
        else r)
      let uniqueIPs := ((store'.filter (fun r =>
        r.fingerprint = fingerprint ∧ now - 86400000 < r.lastSeen)).map
          (fun r => r.ipAddress)).dedup
      let ipCount := if uniqueIPs.length = 0 then 1 else uniqueIPs.length
      if 50 ≤ ipCount then
        ({ isSuspicious := true
           reason := some "Fingerprint used from many different IPs"
           ipCount := ipCount }, store')
      else
        ({ isSuspicious := false, reason := none, ipCount := ipCount }, store')

/-- Track one fingerprint from a sequence of IP addresses, collecting the
per-call results. -/
def trackMany (store : List FPRec) (fingerprint : String) :
    List String → Option String → ℤ → List FPResult × List FPRec
  | [], _, _ => ([], store)
  | ip :: ips, sessionId, now =>
      let step := trackFingerprint store fingerprint ip sessionId now
      let rest := trackMany step.2 fingerprint ips sessionId now
      (step.1 :: rest.1, rest.2)

end Fingerprint

/-! ### Theorems about the fingerprint tracker -/

/-- C8: tracking one fingerprint from 50 distinct IP addresses inside the
same 24 hours never flags it.  The table's `UNIQUE(fingerprint)`
constraint leaves a single row per fingerprint, the repeat-sight update
never records the new IP, and so the distinct-IP query can only ever see
the first IP: every one of the 50 calls reports `ipCount = 1` and
`isSuspicious = false`, where the claim (and the module's own stated
purpose of catching fingerprints used from 50+ IPs) demands the 50th call
report `ipCount = 50` and flip `isSuspicious`. -/
theorem trackFingerprint_fifty_ips_not_flagged :
    ((Fingerprint.trackMany [] "fp1"
        ((List.range 50).map (fun i => "ip" ++ toString i)) none 0).1.getLast? =
      some { isSuspicious := false, reason := none, ipCount := 1 }) ∧
    ((Fingerprint.trackMany [] "fp1"
        ((List.range 50).map (fun i => "ip" ++ toString i)) none 0).1.all
      (fun res => res.isSuspicious = false)) ∧
    ((Fingerprint.trackMany [] "fp1"
        ((List.range 50).map (fun i => "ip" ++ toString i)) none 0).2.length = 1) := by
  refine ⟨?_, ?_, ?_⟩
  · decide
  · decide
  · decide
